import Mathlib

set_option autoImplicit false

/-!
Shallow embedding of `src/ceph_nfs.py` (charm-microceph NFS relation
handler).  External collaborators (the microceph inventory client, the
`microceph.enable_nfs` / `microceph.disable_nfs` actuators, the peer
relation data, ceph key/volume helpers) are modelled as an environment
record `Env` supplying their observable answers; handler functions are
translated into pure Lean functions returning their results together
with the trace of actuator calls they make and the relation data they
leave behind.
-/

/-- An entry of `client.cluster.list_services()`: a dict with at least the
keys `service`, `location` and optionally `group_id` (`s.get("group_id")`
returns `None` when absent, hence `Option`). -/
structure ServiceInstance where
  service : String
  group_id : Option String
  location : String
deriving DecidableEq, Repr

/-- One unit's bag of peer relation data, as read by
`_get_public_address`: `rel_data.get(unit.name)` (the hostname the unit
published under its own name) and `rel_data.get("public-address")`. -/
structure PeerUnit where
  hostname : Option String
  publicAddress : Option String
deriving DecidableEq, Repr

/-- An actuator call made by the handler: `microceph.enable_nfs(host,
cluster_id, public_addr)` or `microceph.disable_nfs(host, cluster_id)`. -/
inductive ActCall where
  | enable (host cluster_id addr : String)
  | disable (host cluster_id : String)
deriving DecidableEq, Repr

/-- Whether an actuator call is an Enable call. -/
def ActCall.isEnable : ActCall → Bool
  | .enable _ _ _ => true
  | .disable _ _ => false

/-- The environment: answers of every external collaborator the handler
consults.  `enable_ok h` / `disable_ok h` say whether the actuator call on
host `h` returns normally (`true`) or raises (`false`). -/
structure Env where
  services : List ServiceInstance
  peers : List PeerUnit
  enable_ok : String → Bool
  disable_ok : String → Bool
  osd_count : Nat
  fsid : String
  mon_addresses : List String
  named_key : String → String

/-- Model of `_get_public_address(hostname)`: scan the peer units, on the
first unit whose self-published hostname equals `hostname` return its
`public-address` entry (possibly `None`); if no unit matches, the Python
function returns `""` (modelled as `some ""`, which the caller treats as
falsy just like `None`). -/
def get_public_address (peers : List PeerUnit) (hostname : String) : Option String :=
  match peers.find? (fun u => u.hostname == some hostname) with
  | some u => u.publicAddress
  | none => some ""

/-- The sublist of `services` with `s["service"] == "nfs"`
(`all_nfs_services` in `_ensure_nfs_cluster`). -/
def nfs_services_all (env : Env) : List ServiceInstance :=
  env.services.filter (fun s => s.service == "nfs")

/-- The nfs services whose `group_id` equals the target cluster id
(`nfs_services` in `_ensure_nfs_cluster`); its length is
`nodes_in_cluster` before the enrollment loop. -/
def nfs_members (env : Env) (cluster_id : String) : List ServiceInstance :=
  (nfs_services_all env).filter (fun s => s.group_id == some cluster_id)

/-- The `exclude_hosts` list: the location of every nfs service instance,
whatever its group. -/
def exclude_hosts (env : Env) : List String :=
  (nfs_services_all env).map (fun s => s.location)

/-- The `all_hosts` set: the distinct locations appearing in the full
service inventory (Python builds a `set`; its iteration order is
unspecified, modelled here by `dedup` of the occurrence list). -/
def all_hosts (env : Env) : List String :=
  (env.services.map (fun s => s.location)).dedup

/-- The candidate list: `[h for h in all_hosts if h not in exclude_hosts]`. -/
def candidates (env : Env) : List String :=
  (all_hosts env).filter (fun h => decide (h ∉ exclude_hosts env))

/-- The enrollment loop of `_ensure_nfs_cluster`: walk the candidates,
skip a candidate whose public address is falsy (`None` or `""`), otherwise
call `enable_nfs` (recorded in the trace whether it succeeds or raises; a
raise is caught and logged, the loop continues), increment the running
count on success and stop as soon as it reaches 3.  Returns the final
`nodes_in_cluster` and the Enable-call trace. -/
def enroll_loop (env : Env) (cluster_id : String) : List String → Nat → Nat × List ActCall
  | [], n => (n, [])
  | c :: cs, n =>
    match get_public_address env.peers c with
    | none => enroll_loop env cluster_id cs n
    | some a =>
      if a = "" then
        enroll_loop env cluster_id cs n
      else if env.enable_ok c then
        if n + 1 = 3 then (n + 1, [ActCall.enable c cluster_id a])
        else
          let r := enroll_loop env cluster_id cs (n + 1)
          (r.1, ActCall.enable c cluster_id a :: r.2)
      else
        let r := enroll_loop env cluster_id cs n
        (r.1, ActCall.enable c cluster_id a :: r.2)

/-- Model of `_ensure_nfs_cluster(cluster_id)` exposing its internal
state: the final `nodes_in_cluster` count and the actuator-call trace.
If the target group already has `>= 3` members the function returns
immediately without computing candidates or calling the actuator. -/
def ensure_nfs_cluster_run (env : Env) (cluster_id : String) : Nat × List ActCall :=
  let pre := (nfs_members env cluster_id).length
  if 3 ≤ pre then (pre, [])
  else enroll_loop env cluster_id (candidates env) pre

/-- The boolean `_ensure_nfs_cluster` returns: `False` exactly when the
final `nodes_in_cluster` is `0` (both early-return branches and the two
tail branches return `True`, and the early return has `pre ≥ 3 > 0`). -/
def ensure_nfs_cluster (env : Env) (cluster_id : String) : Bool :=
  (ensure_nfs_cluster_run env cluster_id).1 != 0

/-- Relation databag contents, as an insertion-ordered association list
(the model of the Python dict `relation.data[self.model.app]`). -/
abbrev RelationData := List (String × String)

/-- Dict assignment `rd[k] = v`: overwrite the entry in place when the key
is present, append otherwise. -/
def rd_set (rd : RelationData) (k v : String) : RelationData :=
  if (rd.map Prod.fst).contains k then
    rd.map (fun p => if p.1 = k then (k, v) else p)
  else rd ++ [(k, v)]

/-- Dict `rd.update(kvs)`: assign each pair in order. -/
def rd_update (rd : RelationData) (kvs : List (String × String)) : RelationData :=
  kvs.foldl (fun acc kv => rd_set acc kv.1 kv.2) rd

/-- Dict lookup `rd.get(k)`. -/
def rd_get (rd : RelationData) (k : String) : Option String :=
  (rd.find? (fun p => p.1 == k)).map (fun p => p.2)

/-- Model of `json.dumps` on the mon address list (an external library
call; the claims only use that the stored value is a function of the
list). -/
def json_dumps (xs : List String) : String :=
  "[" ++ String.intercalate "," xs ++ "]"

/-- Result of `_service_relation`: its boolean return value, the relation
databag it leaves behind, and the actuator calls it made. -/
structure SRResult where
  ok : Bool
  data : RelationData
  calls : List ActCall
deriving Repr

/-- Model of `_service_relation(relation)`.  `app_name` is
`relation.app.name` (both the cluster id and the key-name suffix).  When
`_ensure_nfs_cluster` returns `False` the databag is cleared and nothing
is written; otherwise the six fields are written with `update`.  (The
`_ensure_fs_volume` call is an idempotent external CRUD call touching
only ceph fs volumes, not the relation data or the nfs actuators; it is
not tracked.) -/
def service_relation (env : Env) (app_name : String) (rd : RelationData) : SRResult :=
  let cluster_id := app_name
  let run := ensure_nfs_cluster_run env cluster_id
  if run.1 = 0 then
    ⟨false, [], run.2⟩
  else
    let volume_name := cluster_id ++ "-vol"
    let client_name := "client." ++ app_name
    let client_key := env.named_key client_name
    ⟨true,
      rd_update rd
        [("fsid", env.fsid),
         ("mon-hosts", json_dumps env.mon_addresses),
         ("keyring", client_key),
         ("volume", volume_name),
         ("client", client_name),
         ("cluster-id", cluster_id)],
      run.2⟩

/-- Result of `_on_ceph_nfs_connected`: whether the event was deferred,
whether the service inventory was queried, the actuator calls made, and
the relation databag left behind. -/
structure ConnectedResult where
  deferred : Bool
  queried_inventory : Bool
  calls : List ActCall
  data : RelationData
deriving Repr

/-- Model of `_on_ceph_nfs_connected(event)`: return immediately unless
leader; defer when `ceph.get_osd_count() == 0`; otherwise run
`_service_relation` and defer when it reports failure. -/
def on_ceph_nfs_connected (env : Env) (is_leader : Bool) (app_name : String)
    (rd : RelationData) : ConnectedResult :=
  if !is_leader then ⟨false, false, [], rd⟩
  else if env.osd_count = 0 then ⟨true, false, [], rd⟩
  else
    let r := service_relation env app_name rd
    ⟨!r.ok, true, r.calls, r.data⟩

/-- The services `_remove_nfs_cluster` iterates over: `s["service"] ==
"nfs" and s.get("group_id") == cluster_id`. -/
def matching_nfs (env : Env) (cluster_id : String) : List ServiceInstance :=
  env.services.filter (fun s => s.service == "nfs" && s.group_id == some cluster_id)

/-- The removal loop of `_remove_nfs_cluster`: disable each matching
instance's host in turn; when a `disable_nfs` call raises, the exception
is logged and then RE-RAISED (`raise` in the `except` block), so the loop
stops there and the exception propagates to the caller.  Returns the host
whose disable raised (if any) and the Disable-call trace. -/
def remove_loop (env : Env) (cluster_id : String) :
    List ServiceInstance → Option String × List ActCall
  | [] => (none, [])
  | s :: ss =>
    if env.disable_ok s.location then
      let r := remove_loop env cluster_id ss
      (r.1, ActCall.disable s.location cluster_id :: r.2)
    else (some s.location, [ActCall.disable s.location cluster_id])

/-- Model of `_remove_nfs_cluster(cluster_id)`: query the inventory,
filter to the target group, run the removal loop. -/
def remove_nfs_cluster (env : Env) (cluster_id : String) : Option String × List ActCall :=
  remove_loop env cluster_id (matching_nfs env cluster_id)

/-- Result of `_on_ceph_nfs_departed`: whether the inventory was queried,
the actuator calls, whether an exception escaped the handler, the named
key removed (credential revocation), the app names for which
`_service_relation` was re-invoked (the rebalance), and the other
relations' databags afterwards. -/
structure DepartedResult where
  queried_inventory : Bool
  calls : List ActCall
  raised : Bool
  removed_key : Option String
  reconciled : List String
  others_data : List (String × RelationData)
deriving Repr

/-- Model of `_on_ceph_nfs_departed(event)`: return unless leader; run
`_remove_nfs_cluster` for the departing app (an exception from it
propagates, skipping everything after); then remove the named key
`client.<app>` and re-run `_service_relation` on every other relation of
the endpoint. -/
def on_ceph_nfs_departed (env : Env) (is_leader : Bool) (app_name : String)
    (others : List (String × RelationData)) : DepartedResult :=
  if !is_leader then ⟨false, [], false, none, [], others⟩
  else
    let r := remove_nfs_cluster env app_name
    match r.1 with
    | some _ => ⟨true, r.2, true, none, [], others⟩
    | none =>
      let client_name := "client." ++ app_name
      let results := others.map (fun p => (p.1, service_relation env p.1 p.2))
      ⟨true, r.2 ++ (results.map (fun p => p.2.calls)).flatten, false, some client_name,
        results.map (fun p => p.1), results.map (fun p => (p.1, p.2.data))⟩

/-- Whether an actuator call is an Enable call that succeeded (its host's
`enable_nfs` returned normally). -/
def ActCall.isSuccessEnable (env : Env) : ActCall → Bool
  | .enable h _ _ => env.enable_ok h
  | .disable _ _ => false

/-- Number of successful Enable calls in a trace. -/
def success_enables (env : Env) (tr : List ActCall) : Nat :=
  (tr.filter (ActCall.isSuccessEnable env)).length

/-- Hosts disabled by the removal loop on a host list: every host up to
and including the first one whose disable raises. -/
def disable_attempts (ok : String → Bool) : List String → List String
  | [] => []
  | h :: hs => if ok h then h :: disable_attempts ok hs else [h]

theorem success_enables_nil (env : Env) : success_enables env [] = 0 := rfl

theorem success_enables_cons (env : Env) (a : ActCall) (tr : List ActCall) :
    success_enables env (a :: tr) =
      (if a.isSuccessEnable env then 1 else 0) + success_enables env tr := by
  simp only [success_enables, List.filter_cons]
  cases h : a.isSuccessEnable env <;> simp [List.length_cons, Nat.add_comm]

theorem enroll_loop_count (env : Env) (cid : String) (cs : List String) (n : Nat) :
    (enroll_loop env cid cs n).1 = n + success_enables env (enroll_loop env cid cs n).2 := by
  induction cs generalizing n with
  | nil => simp [enroll_loop, success_enables_nil]
  | cons c cs ih =>
    simp only [enroll_loop]
    cases haddr : get_public_address env.peers c with
    | none => exact ih n
    | some a =>
      by_cases ha : a = ""
      · simp only [ha, if_pos rfl]
        exact ih n
      · simp only [if_neg ha]
        by_cases hok : env.enable_ok c = true
        · by_cases h3 : n + 1 = 3
          · simp [hok, h3, success_enables_cons, ActCall.isSuccessEnable,
              success_enables_nil]
          · have := ih (n + 1)
            simp [hok, h3, success_enables_cons, ActCall.isSuccessEnable]
            omega
        · have := ih n
          have hok' : env.enable_ok c = false := by
            cases h : env.enable_ok c
            · rfl
            · exact absurd h hok
          simp [hok', success_enables_cons, ActCall.isSuccessEnable]
          omega

theorem enroll_loop_le (env : Env) (cid : String) (cs : List String) (n : Nat)
    (h : n < 3) : (enroll_loop env cid cs n).1 ≤ 3 := by
  induction cs generalizing n with
  | nil => simp [enroll_loop]; omega
  | cons c cs ih =>
    simp only [enroll_loop]
    cases haddr : get_public_address env.peers c with
    | none => exact ih n h
    | some a =>
      by_cases ha : a = ""
      · simp only [ha, if_pos rfl]
        exact ih n h
      · simp only [if_neg ha]
        by_cases hok : env.enable_ok c = true
        · by_cases h3 : n + 1 = 3
          · simp [hok, h3]
          · have := ih (n + 1) (by omega)
            simp [hok, h3]
            omega
        · have := ih n h
          have hok' : env.enable_ok c = false := by
            cases hb : env.enable_ok c
            · rfl
            · exact absurd hb hok
          simp [hok']
          omega

theorem ensure_count (env : Env) (cid : String) :
    (ensure_nfs_cluster_run env cid).1 =
      (nfs_members env cid).length +
        success_enables env (ensure_nfs_cluster_run env cid).2 := by
  unfold ensure_nfs_cluster_run
  by_cases h : 3 ≤ (nfs_members env cid).length
  · simp [h, success_enables_nil]
  · simp only [if_neg h]
    exact enroll_loop_count env cid (candidates env) (nfs_members env cid).length

theorem remove_loop_spec (env : Env) (cid : String) (ss : List ServiceInstance) :
    remove_loop env cid ss =
      (((ss.map (fun s => s.location)).find? (fun h => !env.disable_ok h)),
       (disable_attempts env.disable_ok (ss.map (fun s => s.location))).map
         (fun h => ActCall.disable h cid)) := by
  induction ss with
  | nil => rfl
  | cons s ss ih =>
    by_cases hok : env.disable_ok s.location = true
    · simp [remove_loop, List.map_cons, List.find?, disable_attempts, hok, ih]
    · have hok' : env.disable_ok s.location = false := by
        cases hb : env.disable_ok s.location
        · rfl
        · exact absurd hb hok
      simp [remove_loop, List.map_cons, List.find?, disable_attempts, hok']

theorem rd_get_cons (p : String × String) (rd : RelationData) (k : String) :
    rd_get (p :: rd) k = if p.1 = k then some p.2 else rd_get rd k := by
  by_cases h : p.1 = k
  · rw [rd_get, List.find?_cons_of_pos _ (by simp [h]), if_pos h]
    rfl
  · rw [rd_get, List.find?_cons_of_neg _ (by simp [h]), if_neg h]
    rfl

theorem rd_get_map_other (rd : RelationData) (k' v k : String) (h : k' ≠ k) :
    rd_get (rd.map (fun p => if p.1 = k' then (k', v) else p)) k = rd_get rd k := by
  induction rd with
  | nil => rfl
  | cons p rd ih =>
    by_cases hp : p.1 = k'
    · by_cases hk : p.1 = k
      · exact absurd (hp.symm.trans hk) h
      · simp [rd_get_cons, hp, hk, h, ih]
    · by_cases hk : p.1 = k
      · simp [rd_get_cons, hp, hk, Ne.symm h]
      · simp [rd_get_cons, hp, hk, ih]

theorem rd_get_map_self (rd : RelationData) (k v : String)
    (h : k ∈ rd.map Prod.fst) :
    rd_get (rd.map (fun p => if p.1 = k then (k, v) else p)) k = some v := by
  induction rd with
  | nil => simp at h
  | cons p rd ih =>
    by_cases hp : p.1 = k
    · simp [rd_get_cons, hp]
    · have h' : k ∈ rd.map Prod.fst := by
        simp only [List.map_cons, List.mem_cons] at h
        rcases h with h | h
        · exact absurd h.symm hp
        · exact h
      simp [rd_get_cons, hp, ih h']

theorem rd_get_append_self (rd : RelationData) (k v : String)
    (h : ¬ k ∈ rd.map Prod.fst) :
    rd_get (rd ++ [(k, v)]) k = some v := by
  induction rd with
  | nil => simp [rd_get_cons]
  | cons p rd ih =>
    have hp : ¬ p.1 = k := by
      intro he
      exact h (by simp [he.symm])
    have h' : ¬ k ∈ rd.map Prod.fst := by
      intro hm
      exact h (by simp [hm])
    simp [rd_get_cons, hp, ih h']

theorem rd_get_append_other (rd : RelationData) (k' v k : String) (h : k' ≠ k) :
    rd_get (rd ++ [(k', v)]) k = rd_get rd k := by
  induction rd with
  | nil => simp [rd_get_cons, h, rd_get]
  | cons p rd ih =>
    by_cases hk : p.1 = k <;> simp [rd_get_cons, hk, ih]

theorem rd_get_set (rd : RelationData) (k' v k : String) :
    rd_get (rd_set rd k' v) k = if k' = k then some v else rd_get rd k := by
  unfold rd_set
  by_cases hc : (rd.map Prod.fst).contains k' = true
  · rw [if_pos hc]
    by_cases hk : k' = k
    · subst hk
      rw [if_pos rfl]
      exact rd_get_map_self rd k' v (List.elem_iff.mp hc)
    · rw [if_neg hk]
      exact rd_get_map_other rd k' v k hk
  · rw [if_neg hc]
    by_cases hk : k' = k
    · subst hk
      rw [if_pos rfl]
      exact rd_get_append_self rd k' v (fun hm => hc (List.elem_iff.mpr hm))
    · rw [if_neg hk]
      exact rd_get_append_other rd k' v k hk

/-- Environment with two nfs instances of group `g1` (hosts `h1`, `h2`)
where `disable_nfs` raises on `h1`. -/
def env_fail : Env :=
  { services := [⟨"nfs", some "g1", "h1"⟩, ⟨"nfs", some "g1", "h2"⟩],
    peers := [],
    enable_ok := fun _ => true,
    disable_ok := fun h => h != "h1",
    osd_count := 1,
    fsid := "f",
    mon_addresses := ["a1"],
    named_key := fun _ => "k" }

/-- Environment whose service inventory is empty while the peer topology
knows the host `hX` with a resolvable address. -/
def env_peer_only : Env :=
  { services := [],
    peers := [⟨some "hX", some "10.0.0.9"⟩],
    enable_ok := fun _ => true,
    disable_ok := fun _ => true,
    osd_count := 1,
    fsid := "f",
    mon_addresses := ["a1"],
    named_key := fun _ => "k" }

/-- Environment with four hosts running only `osd` services (no nfs
anywhere), all resolvable through the peer topology, and with
`enable_nfs` raising on `h2`. -/
def env_enroll : Env :=
  { services := [⟨"osd", none, "h1"⟩, ⟨"osd", none, "h2"⟩,
                 ⟨"osd", none, "h3"⟩, ⟨"osd", none, "h4"⟩],
    peers := [⟨some "h1", some "10.0.0.1"⟩, ⟨some "h2", some "10.0.0.2"⟩,
              ⟨some "h3", some "10.0.0.3"⟩, ⟨some "h4", some "10.0.0.4"⟩],
    enable_ok := fun h => h != "h2",
    disable_ok := fun _ => true,
    osd_count := 1,
    fsid := "f",
    mon_addresses := ["a1"],
    named_key := fun n => n ++ "-key" }

/-- Environment where group `g1` already has three enrolled members and a
fourth host is free. -/
def env_full : Env :=
  { services := [⟨"nfs", some "g1", "h1"⟩, ⟨"nfs", some "g1", "h2"⟩,
                 ⟨"nfs", some "g1", "h3"⟩, ⟨"osd", none, "h4"⟩],
    peers := [⟨some "h4", some "10.0.0.4"⟩],
    enable_ok := fun _ => true,
    disable_ok := fun _ => true,
    osd_count := 1,
    fsid := "f",
    mon_addresses := ["a1"],
    named_key := fun _ => "k" }

/-- Claim C1 as stated is false: in `env_fail` the group `g1` has two
matching instances (`h1`, `h2`) but after the Disable on `h1` raises, no
Disable is attempted on `h2` — `_remove_nfs_cluster` re-raises inside its
`except` block instead of continuing. -/
theorem c1_counterexample :
    ServiceInstance.mk "nfs" (some "g1") "h2" ∈ matching_nfs env_fail "g1" ∧
    ActCall.disable "h2" "g1" ∉ (remove_nfs_cluster env_fail "g1").2 ∧
    (remove_nfs_cluster env_fail "g1").2 = [ActCall.disable "h1" "g1"] := by
  decide

/-- Claim C1 amended: for every teardown, Disable is attempted for the
matching instances in inventory order only up to and including the first
host whose Disable raises (the failure is logged and re-raised, stopping
the remaining attempts); the raising host, if any, is the first matching
host whose `disable_nfs` fails. -/
theorem c1_teardown_stops_at_first_failure (env : Env) (cid : String) :
    remove_nfs_cluster env cid =
      (((matching_nfs env cid).map (fun s => s.location)).find?
          (fun h => !env.disable_ok h),
       (disable_attempts env.disable_ok
          ((matching_nfs env cid).map (fun s => s.location))).map
         (fun h => ActCall.disable h cid)) :=
  remove_loop_spec env cid (matching_nfs env cid)

/-- Claim C2 as stated is false: in `env_fail` a Disable raises during the
teardown of the departing group `g1`, the exception propagates out of
`_remove_nfs_cluster`, and `_on_ceph_nfs_departed` never reaches
`ceph.remove_named_key` — no credential revocation is attempted. -/
theorem c2_counterexample :
    (remove_nfs_cluster env_fail "g1").1.isSome = true ∧
    (on_ceph_nfs_departed env_fail true "g1" []).removed_key = none := by
  decide

/-- Claim C2 amended: on a depart signal handled with leadership, the
departing consumer's named key is removed exactly when every Disable of
the teardown returns normally; if some Disable raises, the exception
propagates and credential revocation is not attempted. -/
theorem c2_revocation_iff_teardown_clean (env : Env) (app : String)
    (others : List (String × RelationData)) :
    (on_ceph_nfs_departed env true app others).removed_key =
      (if (remove_nfs_cluster env app).1 = none then some ("client." ++ app)
       else none) := by
  unfold on_ceph_nfs_departed
  cases h : (remove_nfs_cluster env app).1 with
  | none => simp [h]
  | some x => simp [h]

/-- Candidate set as the spec's words describe it, for comparison with
`candidates`: the complete known host topology supplied via peer topology
by the Address Resolver, minus every host already running the nfs service
for any group. -/
def candidates_spec (env : Env) : List String :=
  ((env.peers.filterMap (fun u => u.hostname)).dedup).filter
    (fun h => decide (h ∉ exclude_hosts env))

/-- Claim C3 as stated is false: in `env_peer_only` the peer topology
knows host `hX` (with a resolvable address) and `hX` runs no instance of
the service, yet the code's candidate set is empty — the candidate
universe is derived from the service inventory's `location` fields, not
from the peer topology. -/
theorem c3_counterexample :
    candidates_spec env_peer_only = ["hX"] ∧
    candidates env_peer_only = [] ∧
    candidates env_peer_only ≠ candidates_spec env_peer_only := by
  decide

/-- Claim C3 amended: per reconciliation attempt the candidate set is the
set of distinct hosts appearing in the full service inventory (instances
of any service kind) minus every host already running the nfs service for
any group; a host with no inventory instance at all is never a candidate,
even when the peer topology can resolve it (addresses are only consulted
later, per candidate, during enrollment). -/
theorem c3_candidates_from_inventory (env : Env) (h : String) :
    h ∈ candidates env ↔
      ((∃ s ∈ env.services, s.location = h) ∧
       ¬ (∃ s ∈ env.services, s.service = "nfs" ∧ s.location = h)) := by
  simp only [candidates, all_hosts, exclude_hosts, nfs_services_all,
    List.mem_filter, List.mem_dedup, List.mem_map, List.mem_filter,
    decide_eq_true_eq, beq_iff_eq]
  constructor
  · rintro ⟨⟨s, hs, rfl⟩, hnot⟩
    refine ⟨⟨s, hs, rfl⟩, ?_⟩
    rintro ⟨t, ht, htn, htl⟩
    exact hnot ⟨t, ⟨ht, htn⟩, htl⟩
  · rintro ⟨⟨s, hs, rfl⟩, hnot⟩
    refine ⟨⟨s, hs, rfl⟩, ?_⟩
    rintro ⟨t, ⟨ht, htn⟩, htl⟩
    exact hnot ⟨t, ht, htn, htl⟩

/-- Claim C4: enrollment is best-effort per host.  The final member count
always equals the pre-existing member count plus the number of successful
Enable calls, and a resolvable candidate `H` whose `enable_nfs` raises
contributes exactly one (failed) Enable call to the trace while leaving
the processing of the remaining candidates — and the resulting count —
unchanged. -/
theorem c4_enroll_best_effort (env : Env) (cid H a : String) (cs : List String)
    (n : Nat) (hH : env.enable_ok H = false)
    (haddr : get_public_address env.peers H = some a) (ha : a ≠ "") :
    (ensure_nfs_cluster_run env cid).1 =
      (nfs_members env cid).length +
        success_enables env (ensure_nfs_cluster_run env cid).2 ∧
    enroll_loop env cid (H :: cs) n =
      ((enroll_loop env cid cs n).1,
        ActCall.enable H cid a :: (enroll_loop env cid cs n).2) := by
  refine ⟨ensure_count env cid, ?_⟩
  simp [enroll_loop, haddr, ha, hH]

/-- Witness for C4 at `env_enroll` with the raising host `h2`. -/
theorem c4_enroll_best_effort_witness :
    env_enroll.enable_ok "h2" = false ∧
    get_public_address env_enroll.peers "h2" = some "10.0.0.2" ∧
    "10.0.0.2" ≠ "" ∧
    ((ensure_nfs_cluster_run env_enroll "g1").1 =
      (nfs_members env_enroll "g1").length +
        success_enables env_enroll (ensure_nfs_cluster_run env_enroll "g1").2 ∧
     enroll_loop env_enroll "g1" ("h2" :: ["h3"]) 0 =
      ((enroll_loop env_enroll "g1" ["h3"] 0).1,
        ActCall.enable "h2" "g1" "10.0.0.2" :: (enroll_loop env_enroll "g1" ["h3"] 0).2)) :=
  ⟨by decide, by decide, by decide,
    c4_enroll_best_effort env_enroll "g1" "h2" "10.0.0.2" ["h3"] 0
      (by decide) (by decide) (by decide)⟩

/-- Claim C5: when the target group already has at least three members,
reconciliation makes zero actuator calls and returns success immediately;
the model is a pure function of the (unchanged, since no call was made)
environment, so a repeated call returns the identical outcome. -/
theorem c5_already_satisfied_no_calls (env : Env) (cid : String)
    (h : 3 ≤ (nfs_members env cid).length) :
    ensure_nfs_cluster_run env cid = ((nfs_members env cid).length, []) ∧
    ensure_nfs_cluster env cid = true := by
  have hrun : ensure_nfs_cluster_run env cid = ((nfs_members env cid).length, []) := by
    unfold ensure_nfs_cluster_run
    simp [h]
  refine ⟨hrun, ?_⟩
  unfold ensure_nfs_cluster
  rw [hrun]
  have hne : (nfs_members env cid).length ≠ 0 := by omega
  simpa [bne_iff_ne] using hne

/-- Witness for C5 at `env_full`, whose group `g1` has three members. -/
theorem c5_already_satisfied_no_calls_witness :
    3 ≤ (nfs_members env_full "g1").length ∧
    (ensure_nfs_cluster_run env_full "g1" = ((nfs_members env_full "g1").length, []) ∧
     ensure_nfs_cluster env_full "g1" = true) :=
  ⟨by decide, c5_already_satisfied_no_calls env_full "g1" (by decide)⟩

/-- Claim C6: starting from at most three pre-existing members, the member
count after reconciliation never exceeds three and the number of
successful Enable calls is at most `3 - pre` (the loop stops as soon as
the running count reaches three). -/
theorem c6_capacity_bound (env : Env) (cid : String)
    (h : (nfs_members env cid).length ≤ 3) :
    (ensure_nfs_cluster_run env cid).1 ≤ 3 ∧
    success_enables env (ensure_nfs_cluster_run env cid).2 ≤
      3 - (nfs_members env cid).length := by
  have hc := ensure_count env cid
  by_cases h3 : 3 ≤ (nfs_members env cid).length
  · have hrun : ensure_nfs_cluster_run env cid = ((nfs_members env cid).length, []) := by
      unfold ensure_nfs_cluster_run
      simp [h3]
    rw [hrun]
    simp [success_enables_nil]
    omega
  · have hle : (ensure_nfs_cluster_run env cid).1 ≤ 3 := by
      unfold ensure_nfs_cluster_run
      simp only [if_neg h3]
      exact enroll_loop_le env cid (candidates env) _ (by omega)
    exact ⟨hle, by omega⟩

/-- Witness for C6 at `env_enroll` (zero pre-existing members, four
candidates, one of which raises). -/
theorem c6_capacity_bound_witness :
    (nfs_members env_enroll "g1").length ≤ 3 ∧
    ((ensure_nfs_cluster_run env_enroll "g1").1 ≤ 3 ∧
     success_enables env_enroll (ensure_nfs_cluster_run env_enroll "g1").2 ≤
       3 - (nfs_members env_enroll "g1").length) :=
  ⟨by decide, c6_capacity_bound env_enroll "g1" (by decide)⟩

/-- Claim C7: published-state atomicity of `_service_relation`.  When the
reconciliation attempt ends with zero members the databag is cleared
entirely and nothing is written; when it ends with at least one member the
full six-field record is written. -/
theorem c7_publish_atomicity (env : Env) (app : String) (rd : RelationData) :
    ((ensure_nfs_cluster_run env app).1 = 0 →
      (service_relation env app rd).data = []) ∧
    (1 ≤ (ensure_nfs_cluster_run env app).1 →
      (rd_get (service_relation env app rd).data "fsid" = some env.fsid ∧
       rd_get (service_relation env app rd).data "mon-hosts" =
         some (json_dumps env.mon_addresses) ∧
       rd_get (service_relation env app rd).data "keyring" =
         some (env.named_key ("client." ++ app)) ∧
       rd_get (service_relation env app rd).data "volume" = some (app ++ "-vol") ∧
       rd_get (service_relation env app rd).data "client" = some ("client." ++ app) ∧
       rd_get (service_relation env app rd).data "cluster-id" = some app)) := by
  constructor
  · intro h0
    unfold service_relation
    simp [h0]
  · intro h1
    have hne : ¬ (ensure_nfs_cluster_run env app).1 = 0 := by omega
    unfold service_relation
    simp only [if_neg hne]
    unfold rd_update
    simp only [List.foldl]
    simp only [rd_get_set]
    simp

/-- Claim C8: on a depart signal handled with leadership whose teardown
completes without a Disable raising, `_service_relation` (the
reconciliation) is invoked exactly once for each other relation of the
endpoint, in order. -/
theorem c8_rebalance_after_departure (env : Env) (app : String)
    (others : List (String × RelationData))
    (hclean : (remove_nfs_cluster env app).1 = none) :
    (on_ceph_nfs_departed env true app others).reconciled = others.map Prod.fst := by
  unfold on_ceph_nfs_departed
  simp [hclean]

/-- Witness for C8 at `env_enroll` (no nfs members, so the teardown of
`g1` makes no Disable call and completes) with two other relations. -/
theorem c8_rebalance_after_departure_witness :
    (remove_nfs_cluster env_enroll "g1").1 = none ∧
    (on_ceph_nfs_departed env_enroll true "g1"
        [("g2", ([] : RelationData)), ("g3", ([] : RelationData))]).reconciled =
      ([("g2", ([] : RelationData)), ("g3", ([] : RelationData))]).map Prod.fst :=
  ⟨by decide,
    c8_rebalance_after_departure env_enroll "g1"
      [("g2", ([] : RelationData)), ("g3", ([] : RelationData))] (by decide)⟩

/-- Claim C9: without leadership both handlers are complete no-ops: no
deferral, no inventory query, no actuator call, and the relation databags
(of the event's relation and of every other relation) are left exactly as
they were. -/
theorem c9_leadership_gate (env : Env) (app : String) (rd : RelationData)
    (others : List (String × RelationData)) :
    on_ceph_nfs_connected env false app rd =
      ⟨false, false, [], rd⟩ ∧
    on_ceph_nfs_departed env false app others =
      ⟨false, [], false, none, [], others⟩ :=
  ⟨rfl, rfl⟩

theorem enroll_loop_only_enables (env : Env) (cid : String) (cs : List String)
    (n : Nat) : ∀ a ∈ (enroll_loop env cid cs n).2, a.isEnable = true := by
  induction cs generalizing n with
  | nil => simp [enroll_loop]
  | cons c cs ih =>
    simp only [enroll_loop]
    cases haddr : get_public_address env.peers c with
    | none => exact ih n
    | some a =>
      by_cases ha : a = ""
      · simp only [ha, if_pos rfl]
        exact ih n
      · simp only [if_neg ha]
        by_cases hok : env.enable_ok c = true
        · by_cases h3 : n + 1 = 3
          · simp [hok, h3, ActCall.isEnable]
          · intro x hx
            simp only [hok, if_pos rfl, if_neg h3] at hx
            rcases List.mem_cons.mp hx with he | hx
            · rw [he]
              rfl
            · exact ih (n + 1) x hx
        · intro x hx
          have hok' : env.enable_ok c = false := by
            cases hb : env.enable_ok c
            · rfl
            · exact absurd hb hok
          simp only [hok', Bool.false_eq_true, if_false] at hx
          rcases List.mem_cons.mp hx with he | hx
          · rw [he]
            rfl
          · exact ih n x hx

/-- Claim C10: reconciliation never removes members: every actuator call
`_ensure_nfs_cluster` makes is an Enable call (no Disable ever), and when
the observed member count of the target group already exceeds three it
returns success with no actuator call at all, leaving the excess
untrimmed. -/
theorem c10_reconcile_never_removes (env : Env) (cid : String) :
    (∀ a ∈ (ensure_nfs_cluster_run env cid).2, a.isEnable = true) ∧
    (3 < (nfs_members env cid).length →
      ensure_nfs_cluster env cid = true ∧
      (ensure_nfs_cluster_run env cid).2 = []) := by
  constructor
  · unfold ensure_nfs_cluster_run
    by_cases h3 : 3 ≤ (nfs_members env cid).length
    · simp [h3]
    · simp only [if_neg h3]
      exact enroll_loop_only_enables env cid (candidates env) _
  · intro h
    have h3 : 3 ≤ (nfs_members env cid).length := by omega
    have hrun : ensure_nfs_cluster_run env cid = ((nfs_members env cid).length, []) := by
      unfold ensure_nfs_cluster_run
      simp [h3]
    constructor
    · unfold ensure_nfs_cluster
      rw [hrun]
      have hne : (nfs_members env cid).length ≠ 0 := by omega
      simpa [bne_iff_ne] using hne
    · rw [hrun]
